import Mathlib

/-!
Shallow embedding of MONAI's `monai/data/meta_tensor.py` (`MetaTensor`):
the metadata-propagation engine wrapping tensor operations.

Storage tensors are modelled as a device id plus integer matrix rows;
metadata dictionaries as ordered association lists; the Python exceptions
(`KeyError`, `IndexError`, `TypeError`, `AttributeError`, `ValueError`)
as an `Except` error type.  Components of the repository that are not in
`src/` (`MetaObj`, `decollate_batch`, `list_data_collate`) are modelled
from the spec, as marked in their doc comments.
-/

/-- Python exception kinds that the embedded code can raise. -/
inductive Err where
  | keyError
  | indexError
  | typeError
  | attrError
  | valueError
deriving DecidableEq, Repr

/-- A storage tensor: a device id plus its (opaque) numeric contents,
modelled as integer matrix rows.  `torch.Tensor.to(device)` becomes
`STensor.toD`. -/
structure STensor where
  device : Nat
  rows : List (List Int)
deriving DecidableEq, Repr

/-- Model of `torch.Tensor.to(device)`: same contents, new device. -/
def STensor.toD (t : STensor) (d : Nat) : STensor :=
  { t with device := d }

/-- Model of `torch.eye(4, device=d)`, as produced by
`MetaTensor.get_default_affine`. -/
def eye4 (d : Nat) : STensor :=
  ⟨d, [[1,0,0,0],[0,1,0,0],[0,0,1,0],[0,0,0,1]]⟩

/-- A leaf metadata value: a string, an integer, or a tensor. -/
inductive LeafVal where
  | str (s : String)
  | int (n : Int)
  | tens (t : STensor)
deriving DecidableEq, Repr

/-- A metadata value: a leaf, or a batch-stacked sequence of leaves as
produced by collation (a `stacked` whose elements are all tensors models
one stacked `torch.Tensor`; a mixed `stacked` models a Python list). -/
inductive MetaVal where
  | leaf (v : LeafVal)
  | stacked (vs : List LeafVal)
deriving DecidableEq, Repr

/-- An ordered Python dictionary `str -> value` (insertion order kept). -/
abbrev MetaDict := List (String × MetaVal)

/-- Python dictionary lookup on an association list, comparing keys by
decidable equality. -/
def alookup {α β : Type} [DecidableEq α] (k : α) : List (α × β) → Option β
  | [] => none
  | (k2, v) :: rest => if k = k2 then some v else alookup k rest

/-- The value stored in a `MetaTensor`'s `meta` attribute.  Normally a
dictionary; `update_meta` can also store a plain Python list of per-item
dictionaries (when a batch is sliced down to at most one item), which is
why both shapes are representable. -/
inductive MetaData where
  | dict (d : MetaDict)
  | pylist (ds : List MetaDict)
deriving Repr

/-- Python `d[k] = v` on an ordered dict: replace in place if the key
exists, else append. -/
def setK (d : MetaDict) (k : String) (v : MetaVal) : MetaDict :=
  if (alookup k d).isSome then
    d.map (fun kv => if kv.1 = k then (k, v) else kv)
  else
    d ++ [(k, v)]

/-- View a metadata value as a leaf, when it is one. -/
def asLeaf : MetaVal → Option LeafVal
  | .leaf v => some v
  | .stacked _ => none

/-- Modelled from the spec: `list_data_collate` (the batch adapter's
`collate`, not under `src/`) combines per-item metadata dictionaries into
one batch record, stacking each field across items along a new leading
axis (spec section 4.4). -/
def list_data_collate (ms : List MetaDict) : MetaDict :=
  match ms with
  | [] => []
  | m0 :: _ =>
    m0.map (fun kv =>
      (kv.1, MetaVal.stacked ((ms.filterMap (fun m => alookup kv.1 m)).filterMap asLeaf)))

/-- The i-th item of a collated value: pick the i-th element of a stacked
value, leave non-stacked values alone. -/
def itemVal (v : MetaVal) (i : Nat) : MetaVal :=
  match v with
  | .stacked vs => .leaf (vs.getD i (.int 0))
  | v => v

/-- Batch size of a collated record: length of its first stacked field. -/
def batch_size (d : MetaDict) : Nat :=
  match d.filterMap (fun kv => match kv.2 with | .stacked vs => some vs.length | _ => none) with
  | [] => 0
  | n :: _ => n

/-- Modelled from the spec: `decollate_batch` (the batch adapter's
`decollate`, not under `src/`) splits one batch metadata record into the
ordered sequence of per-item records, inverting `list_data_collate`
(spec section 4.4). -/
def decollate_batch (d : MetaDict) : List MetaDict :=
  (List.range (batch_size d)).map (fun i => d.map (fun kv => (kv.1, itemVal kv.2 i)))

/-- A Python index expression component: an integer, a slice
`slice(start, stop, step)` (with `none` for omitted bounds), or `...`. -/
inductive PyIndex where
  | int (i : Int)
  | slice (start stop step : Option Int)
  | ellipsis
deriving DecidableEq, Repr

/-- The full-range selector `slice(None, None, None)`. -/
def fullSlice : PyIndex := .slice none none none

/-- Python list indexing by a (possibly negative) integer: normalise into
`[0, len)` or report out of range. -/
def pyNormIdx (len : Nat) (i : Int) : Option Nat :=
  let j := if i < 0 then i + len else i
  if 0 ≤ j ∧ j < len then some j.toNat else none

/-- Clamp a slice bound for a positive step (CPython slice semantics). -/
def clampPos (len : Nat) (v : Int) : Int :=
  if v < 0 then max 0 (v + len) else min v len

/-- Clamp a slice bound for a negative step (CPython slice semantics). -/
def clampNeg (len : Nat) (v : Int) : Int :=
  if v < 0 then max (-1) (v + len) else min v ((len : Int) - 1)

/-- Walk slice indices from `i` toward `stop` in increments of `step`,
with fuel bounding the number of produced indices. -/
def sliceWalk : Nat → Int → Int → Int → List Int
  | 0, _, _, _ => []
  | fuel+1, i, stop, step =>
    if (0 < step ∧ i < stop) ∨ (step < 0 ∧ stop < i) then
      i :: sliceWalk fuel (i + step) stop step
    else []

/-- Python list slicing `l[start:stop:step]`; `ValueError` on step 0. -/
def pySlice (l : List MetaDict) (start stop step : Option Int) : Except Err (List MetaDict) :=
  let n := l.length
  let st := step.getD 1
  if st = 0 then .error .valueError
  else
    let lo := match start with
      | some v => if 0 < st then clampPos n v else clampNeg n v
      | none => if 0 < st then 0 else (n : Int) - 1
    let hi := match stop with
      | some v => if 0 < st then clampPos n v else clampNeg n v
      | none => if 0 < st then (n : Int) else -1
    .ok ((sliceWalk (n + 1) lo hi st).filterMap (fun i => l.get? i.toNat))

example : pySlice [[("a", MetaVal.leaf (.int 0))], [("a", MetaVal.leaf (.int 1))], [("a", MetaVal.leaf (.int 2))]] (some 0) (some 2) none =
    .ok [[("a", MetaVal.leaf (.int 0))], [("a", MetaVal.leaf (.int 1))]] := rfl

example : pySlice [[("a", MetaVal.leaf (.int 0))], [("a", MetaVal.leaf (.int 1))], [("a", MetaVal.leaf (.int 2))]] none none (some (-1)) =
    .ok [[("a", MetaVal.leaf (.int 2))], [("a", MetaVal.leaf (.int 1))], [("a", MetaVal.leaf (.int 0))]] := rfl

/-- A `MetaTensor` value as seen by the interceptor: underlying storage,
metadata attribute, and the `is_batch` flag. -/
structure MT where
  data : STensor
  meta : MetaData
  is_batch : Bool
deriving Repr

/-- One element of an operation's raw result: a `MetaTensor`, a plain
`torch.Tensor`, or a Python string. -/
inductive RVal where
  | mt (t : MT)
  | plain (t : STensor)
  | pystr (s : String)
deriving Repr

/-- A positional or keyword operand of an intercepted operation.  Index
expressions are encoded as `idx` (single component) or `tup` (tuple of
components); `seq` is a nested list of operands. -/
inductive Arg where
  | mt (t : MT)
  | plain (t : STensor)
  | idx (i : PyIndex)
  | tup (is : List PyIndex)
  | int (n : Int)
  | seq (xs : List Arg)
deriving Repr

/-- The intercepted torch function: `Tensor.__getitem__`,
`Tensor.unbind`, or any other operation (identified by name). -/
inductive Func where
  | getitem
  | unbind
  | other (name : String)
deriving DecidableEq, Repr

mutual

/-- Modelled from the spec: `MetaObj.flatten_meta_objs` is not under
`src/`; per spec section 4.3 step 4c it expands one operand depth-first
into its metadata-carrying leaves. -/
def flattenOne : Arg → List MT
  | .mt t => [t]
  | .seq xs => flatten_meta_objs xs
  | _ => []

/-- Modelled from the spec: flatten an operand list into the ordered list
of metadata-carrying tensors, recursively expanding nested sequences
depth-first, left-to-right (spec section 4.3 step 4c). -/
def flatten_meta_objs : List Arg → List MT
  | [] => []
  | a :: rest => flattenOne a ++ flatten_meta_objs rest

end

/-- Whether a `meta` attribute value is non-empty. -/
def metaNonEmpty : MetaData → Bool
  | .dict d => !d.isEmpty
  | .pylist l => !l.isEmpty

/-- Modelled from the spec: `MetaObj._copy_meta` is not under `src/`; per
spec section 4.1 it copies the metadata record (which per section 3
carries the `isBatch` flag) from the first non-empty source in the
flattened operand list, defaulting to an empty record. -/
def copy_meta (srcs : List MT) : MetaData × Bool :=
  match srcs.find? (fun s => metaNonEmpty s.meta) with
  | some s => (s.meta, s.is_batch)
  | none => (.dict [], false)

/-- Lines 146-148 of `meta_tensor.py`: `idx = args[1]`, then take the
first component when the index expression is a tuple. -/
def first_index (args : List Arg) : Except Err PyIndex :=
  match args.get? 1 with
  | some (.idx i) => .ok i
  | some (.tup (i :: _)) => .ok i
  | some (.tup []) => .error .indexError
  | some _ => .error .typeError
  | none => .error .indexError

/-- Whether an argument is the Python integer `0`. -/
def argIsIntZero : Arg → Bool
  | .int n => n == 0
  | _ => false

/-- Lines 167-173 of `meta_tensor.py`: the unbind dimension is `args[1]`
if given positionally, else `kwargs["dim"]`, else `0`; the batch split
applies exactly when it compares equal to `0`. -/
def unbind_dim_is_zero (args : List Arg) (kwargs : List (String × Arg)) : Bool :=
  match args.get? 1 with
  | some a => argIsIntZero a
  | none =>
    match alookup "dim" kwargs with
    | some a => argIsIntZero a
    | none => true

/-- Apply `.to(dev)` across the elements of a stacked tensor; fails when
some element is not a tensor (the stack then models a Python list, on
which `.to` raises `AttributeError`). -/
def leafTensTo : List LeafVal → Nat → Option (List LeafVal)
  | [], _ => some []
  | .tens t :: rest, d =>
    match leafTensTo rest d with
    | some r => some (.tens (t.toD d) :: r)
    | none => none
  | _ :: _, _ => none

/-- Model of `value.to(device)` for a metadata value: defined on tensors
and stacked tensors, `AttributeError` otherwise. -/
def affine_val_to (v : MetaVal) (dev : Nat) : Except Err MetaVal :=
  match v with
  | .leaf (.tens a) => .ok (.leaf (.tens (a.toD dev)))
  | .stacked vs =>
    match leafTensTo vs dev with
    | some vs2 => .ok (.stacked vs2)
    | none => .error .attrError
  | _ => .error .attrError

/-- Model of `self.affine = self.affine.to(self.device)` on a metadata
dictionary: read `d["affine"]` (`KeyError` when absent), move it to the
device, store it back. -/
def affine_dict_to_device (d : MetaDict) (dev : Nat) : Except Err MetaDict :=
  match alookup "affine" d with
  | none => .error .keyError
  | some v =>
    match affine_val_to v dev with
    | .error e => .error e
    | .ok v2 => .ok (setK d "affine" v2)

/-- Line 177 of `meta_tensor.py` on the `meta` attribute: when `meta` is
a Python list (not a dictionary), `self.meta["affine"]` raises
`TypeError` (list indices must be integers, not str). -/
def affine_to_device (m : MetaData) (dev : Nat) : Except Err MetaData :=
  match m with
  | .pylist _ => .error .typeError
  | .dict d =>
    match affine_dict_to_device d dev with
    | .error e => .error e
    | .ok d2 => .ok (.dict d2)

/-- Lines 153-162 of `meta_tensor.py`: `meta = metas[idx]`; a list of
more than one item is re-collated (keeping `is_batch`); otherwise the
selected value - a single dictionary for an integer index, but the
one-element (or empty) list itself for a short slice - is assigned as
`ret.meta` and `is_batch` is set to `False`. -/
def narrow_meta (t : MT) (metas : List MetaDict) (i0 : PyIndex) : Except Err MT :=
  match i0 with
  | .int v =>
    match pyNormIdx metas.length v with
    | some j => .ok { t with meta := .dict (metas.getD j []), is_batch := false }
    | none => .error .indexError
  | .slice a b c =>
    match pySlice metas a b c with
    | .error e => .error e
    | .ok ms =>
      if ms.length > 1 then .ok { t with meta := .dict (list_data_collate ms) }
      else .ok { t with meta := .pylist ms, is_batch := false }
  | .ellipsis => .error .typeError

/-- Lines 141-143 of `meta_tensor.py`: decollate the batch metadata once
per call (memoised in `metas`). -/
def get_metas (memo : Option (List MetaDict)) (m : MetaData) : Except Err (List MetaDict) :=
  match memo with
  | some ms => .ok ms
  | none =>
    match m with
    | .dict d => .ok (decollate_batch d)
    | .pylist _ => .error .typeError

/-- Lines 140-175 of `meta_tensor.py`: the batch-aware post-processing
for one result element at loop position `i`. -/
def batch_step (fn : Func) (args : List Arg) (kwargs : List (String × Arg))
    (i : Nat) (memo : Option (List MetaDict)) (t : MT) :
    Except Err (MT × Option (List MetaDict)) :=
  if t.is_batch then
    match get_metas memo t.meta with
    | .error e => .error e
    | .ok metas =>
      match fn with
      | .getitem =>
        match first_index args with
        | .error e => .error e
        | .ok i0 =>
          if i0 = fullSlice ∨ i0 = PyIndex.ellipsis then .ok (t, some metas)
          else
            match narrow_meta t metas i0 with
            | .error e => .error e
            | .ok t2 => .ok (t2, some metas)
      | .unbind =>
        if unbind_dim_is_zero args kwargs then
          match metas.get? i with
          | some m => .ok ({ t with meta := .dict m, is_batch := false }, some metas)
          | none => .error .indexError
        else .ok (t, some metas)
      | .other _ => .ok (t, some metas)
  else .ok (t, memo)

/-- The body of `update_meta`'s loop (lines 124-178 of `meta_tensor.py`)
for one result element: non-`MetaTensor` elements pass through; with
tracking globally off a `MetaTensor` is demoted via `as_tensor`; else
metadata is merged from the flattened operands, batch post-processing
applies, and the affine is moved onto the element's device. -/
def process_ret (fn : Func) (args : List Arg) (kwargs : List (String × Arg)) (tm tt : Bool)
    (i : Nat) (memo : Option (List MetaDict)) (r : RVal) :
    Except Err (RVal × Option (List MetaDict)) :=
  match r with
  | .mt t =>
    if tm || tt then
      match copy_meta (flatten_meta_objs (args ++ kwargs.map Prod.snd)) with
      | (m, b) =>
        match batch_step fn args kwargs i memo { t with meta := m, is_batch := b } with
        | .error e => .error e
        | .ok (t2, memo2) =>
          match affine_to_device t2.meta t2.data.device with
          | .error e => .error e
          | .ok m2 => .ok (.mt { t2 with meta := m2 }, memo2)
    else
      .ok (.plain t.data, memo)
  | r => .ok (r, memo)

/-- The loop of `MetaTensor.update_meta` over the result sequence,
threading the loop index and the memoised decollated metadata. -/
def update_meta_list (fn : Func) (args : List Arg) (kwargs : List (String × Arg))
    (tm tt : Bool) : Nat → Option (List MetaDict) → List RVal → Except Err (List RVal)
  | _, _, [] => .ok []
  | i, memo, r :: rest =>
    match process_ret fn args kwargs tm tt i memo r with
    | .error e => .error e
    | .ok (r2, memo2) =>
      match update_meta_list fn args kwargs tm tt (i + 1) memo2 rest with
      | .error e => .error e
      | .ok out => .ok (r2 :: out)

/-- The raw result of the underlying torch operation, before and after
metadata processing: a single non-sequence value, a string, a list, or a
tuple. -/
inductive Raw where
  | rv (v : RVal)
  | str (s : String)
  | listR (vs : List RVal)
  | tupleR (vs : List RVal)
deriving Repr

/-- `MetaTensor.update_meta` (lines 114-180): process the normalised
result sequence and return it as a tuple exactly when the input was a
tuple, else as a list. -/
def update_meta (rets : List RVal) (isTuple : Bool) (fn : Func) (args : List Arg)
    (kwargs : List (String × Arg)) (tm tt : Bool) : Except Err Raw :=
  match update_meta_list fn args kwargs tm tt 0 none rets with
  | .error e => .error e
  | .ok out => .ok (if isTuple then .tupleR out else .listR out)

/-- `MetaTensor.__torch_function__` (lines 182-200), applied to the raw
result of the underlying operation: with an `out=` keyword the raw
result is returned unchanged; a non-sequence result is wrapped, processed
and unwrapped; a sequence result (a Python string is a `Sequence` and is
iterated character by character) is processed element-wise. -/
def torch_function (fn : Func) (args : List Arg) (kwargs : List (String × Arg))
    (raw : Raw) (tm tt : Bool) : Except Err Raw :=
  if (alookup "out" kwargs).isSome then .ok raw
  else
    match raw with
    | .rv v =>
      match update_meta [v] false fn args kwargs tm tt with
      | .error e => .error e
      | .ok (.listR (v2 :: _)) => .ok (.rv v2)
      | .ok _ => .error .indexError
    | .str s =>
      update_meta (s.data.map (fun c => RVal.pystr (String.mk [c]))) false fn args kwargs tm tt
    | .listR vs => update_meta vs false fn args kwargs tm tt
    | .tupleR vs => update_meta vs true fn args kwargs tm tt

/-- A heap of metadata dictionaries, used to model Python reference
semantics (aliasing versus deep copy) during `MetaTensor.__init__`.
Reads find the most recent binding of a reference. -/
structure Heap where
  next : Nat
  store : List (Nat × MetaDict)
deriving Repr

/-- Dereference: the dictionary bound to `r` (empty when unbound). -/
def Heap.get (h : Heap) (r : Nat) : MetaDict :=
  (alookup r h.store).getD []

/-- Mutate the dictionary bound to `r` in place. -/
def Heap.set (h : Heap) (r : Nat) (d : MetaDict) : Heap :=
  { h with store := (r, d) :: h.store }

/-- Allocate a fresh dictionary and return its reference. -/
def Heap.alloc (h : Heap) (d : MetaDict) : Heap × Nat :=
  ({ next := h.next + 1, store := (h.next, d) :: h.store }, h.next)

/-- The references bound in the heap. -/
def Heap.dom (h : Heap) : List Nat :=
  h.store.map Prod.fst

/-- A well-formed heap only binds references below its allocation
counter. -/
def heapWf (h : Heap) : Prop :=
  ∀ r ∈ h.dom, r < h.next

/-- A constructed `MetaTensor` in the reference-semantics model: storage
plus a reference to its metadata dictionary. -/
structure HMT where
  data : STensor
  metaRef : Nat
deriving DecidableEq, Repr

/-- The constructor source `x`: a plain `torch.Tensor`, or a
`MetaTensor` (which carries metadata). -/
inductive Src where
  | plainT (t : STensor)
  | metaT (m : HMT)
deriving Repr

/-- The storage the constructed tensor wraps
(`torch.as_tensor(x).as_subclass(cls)`). -/
def Src.dataOf : Src → STensor
  | .plainT t => t
  | .metaT m => m.data

/-- Lines 85-105 of `meta_tensor.py` (`MetaTensor.__init__` before the
final affine device fix): metadata selection (explicit `meta` argument,
else the source's record by reference, else the fresh empty record from
`MetaObj.__init__`, which is modelled from the spec as an empty mapping);
affine resolution by priority (explicit argument - warning if the
selected metadata already has one - else `meta["affine"]`, else
`x.affine` for a `MetaTensor` source, else the default identity); then a
deep copy of the metadata exactly when `x` is a plain `torch.Tensor`.
Returns the heap, the metadata reference, and the warning flag. -/
def init_core (hp : Heap) (x : Src) (aArg : Option STensor) (mArg : Option Nat) :
    Except Err (Heap × Nat × Bool) :=
  let h1 := (hp.alloc []).1
  let ref : Nat :=
    match mArg with
    | some rm => rm
    | none =>
      match x with
      | .metaT m => m.metaRef
      | .plainT _ => (hp.alloc []).2
  let sel := h1.get ref
  let warned := aArg.isSome && (alookup "affine" sel).isSome
  let step3 : Except Err Heap :=
    match aArg with
    | some a => .ok (h1.set ref (setK sel "affine" (.leaf (.tens a))))
    | none =>
      if (alookup "affine" sel).isSome then .ok h1
      else
        match x with
        | .metaT m =>
          match alookup "affine" (h1.get m.metaRef) with
          | some v => .ok (h1.set ref (setK sel "affine" v))
          | none => .error .keyError
        | .plainT t => .ok (h1.set ref (setK sel "affine" (.leaf (.tens (eye4 t.device)))))
  match step3 with
  | .error e => .error e
  | .ok h2 =>
    match x with
    | .plainT _ => .ok ((h2.alloc (h2.get ref)).1, (h2.alloc (h2.get ref)).2, warned)
    | .metaT _ => .ok (h2, ref, warned)

/-- `MetaTensor.__init__` (lines 78-106): `init_core` followed by
`self.affine = self.affine.to(self.device)`. -/
def metatensor_init (hp : Heap) (x : Src) (aArg : Option STensor) (mArg : Option Nat) :
    Except Err (Heap × HMT × Bool) :=
  match init_core hp x aArg mArg with
  | .error e => .error e
  | .ok (h1, ref, w) =>
    match affine_dict_to_device (h1.get ref) (Src.dataOf x).device with
    | .error e => .error e
    | .ok d2 => .ok (h1.set ref d2, ⟨Src.dataOf x, ref⟩, w)

/-- Lines 108-112 of `meta_tensor.py` (`MetaTensor._copy_attr`): after
the attribute value has been chosen by `MetaObj._copy_attr` (not under
`src/`), a tensor-valued attribute is moved onto the owner's device;
other values are left alone. -/
def copy_attr_fix (v : MetaVal) (dev : Nat) : MetaVal :=
  match v with
  | .leaf (.tens t) => .leaf (.tens (t.toD dev))
  | .stacked vs =>
    match leafTensTo vs dev with
    | some vs2 => .stacked vs2
    | none => .stacked vs
  | v => v

/-- Whether a metadata value models a `torch.Tensor` (a tensor, or a
batch-stacked tensor). -/
def is_tensor_like : MetaVal → Bool
  | .leaf (.tens _) => true
  | .stacked vs => vs.all (fun l => match l with | .tens _ => true | _ => false)
  | _ => false

/-- Whether a leaf value is a tensor residing on device `dev`. -/
def leafOnDev (l : LeafVal) (dev : Nat) : Bool :=
  match l with
  | .tens t => t.device == dev
  | _ => false

/-- Whether a metadata value is a tensor (or stacked tensor) residing
entirely on device `dev`. -/
def valOnDev (v : MetaVal) (dev : Nat) : Bool :=
  match v with
  | .leaf (.tens t) => t.device == dev
  | .stacked vs => vs.all (fun l => leafOnDev l dev)
  | _ => false

/-- Device invariant for a metadata dictionary: the affine entry, when
present, resides on `dev`. -/
def dictAffDevOk (d : MetaDict) (dev : Nat) : Bool :=
  match alookup "affine" d with
  | some v => valOnDev v dev
  | none => true

/-- Device invariant for an interceptor-model tensor: the affine stored
in its metadata resides on the device of its data. -/
def mtAffDevOk (t : MT) : Bool :=
  match t.meta with
  | .dict d => dictAffDevOk d t.data.device
  | .pylist _ => true

/-- Example affine tensor of metadata record `ex_m0`. -/
def exA0 : STensor := ⟨0, [[1]]⟩

/-- Example affine tensor of metadata record `ex_m1`. -/
def exA1 : STensor := ⟨0, [[2]]⟩

/-- Example affine tensor of metadata record `ex_m2`. -/
def exA2 : STensor := ⟨0, [[3]]⟩

/-- Per-item metadata record of batch item 0. -/
def ex_m0 : MetaDict := [("affine", .leaf (.tens exA0)), ("k", .leaf (.int 7))]

/-- Per-item metadata record of batch item 1. -/
def ex_m1 : MetaDict := [("affine", .leaf (.tens exA1)), ("k", .leaf (.int 8))]

/-- Per-item metadata record of batch item 2. -/
def ex_m2 : MetaDict := [("affine", .leaf (.tens exA2)), ("k", .leaf (.int 9))]

/-- Collated metadata of the example three-item batch. -/
def exBatchMeta : MetaDict := list_data_collate [ex_m0, ex_m1, ex_m2]

/-- The example batch `MetaTensor` (`is_batch = true`). -/
def exBatch : MT := ⟨⟨0, [[1], [2], [3]]⟩, .dict exBatchMeta, true⟩

/-- A raw result element as produced by the underlying torch operation,
before its metadata attributes are populated. -/
def exRet : MT := ⟨⟨0, [[1]]⟩, .dict [], false⟩

/-- Affine tensor of the example operand `ex_a`. -/
def exAffA : STensor := ⟨0, [[10]]⟩

/-- Affine tensor of the example operand `ex_b`. -/
def exAffB : STensor := ⟨0, [[20]]⟩

/-- Metadata of the example operand `ex_a`. -/
def exMeta_a : MetaDict := [("affine", .leaf (.tens exAffA)), ("some", .leaf (.str "info"))]

/-- Metadata of the example operand `ex_b`. -/
def exMeta_b : MetaDict := [("affine", .leaf (.tens exAffB)), ("other", .leaf (.str "bbb"))]

/-- Example non-batch operand `a` with non-empty metadata. -/
def ex_a : MT := ⟨⟨0, [[1, 2, 3]]⟩, .dict exMeta_a, false⟩

/-- Example non-batch operand `b` with non-empty metadata. -/
def ex_b : MT := ⟨⟨0, [[4, 5, 6]]⟩, .dict exMeta_b, false⟩

/-- Raw result element of `a + b` before metadata processing. -/
def ex_raw_add : MT := ⟨⟨0, [[5, 7, 9]]⟩, .dict [], false⟩

example : decollate_batch exBatchMeta = [ex_m0, ex_m1, ex_m2] := rfl

example : batch_size exBatchMeta = 3 := rfl

/-- C7: for every intercepted operation whose keyword arguments contain
an explicit `out` entry, the raw result is returned unchanged and no
metadata is read, merged, or modified (lines 188-190 of
`meta_tensor.py`). -/
theorem c7_out_kwarg_returns_raw_unchanged (fn : Func) (args : List Arg)
    (kwargs : List (String × Arg)) (raw : Raw) (tm tt : Bool) (o : Arg)
    (h : alookup "out" kwargs = some o) :
    torch_function fn args kwargs raw tm tt = .ok raw := by
  unfold torch_function
  rw [h]
  rfl

/-- Witness for C7: an in-place addition with `out=` returns its raw
result untouched. -/
theorem c7_witness :
    torch_function (.other "add") [Arg.mt ex_a, Arg.mt ex_b]
      [("out", Arg.plain exAffA)] (.rv (.mt ex_raw_add)) true true =
      .ok (.rv (.mt ex_raw_add)) :=
  c7_out_kwarg_returns_raw_unchanged _ _ _ _ _ _ (Arg.plain exAffA) rfl

/-- C5: with both tracking flags off at dispatch time (and no `out`
keyword), a `MetaTensor` result element is demoted to a plain tensor
(lines 128-130 and 205-210 of `meta_tensor.py`). -/
theorem c5_tracking_off_demotes_to_plain (fn : Func) (args : List Arg)
    (kwargs : List (String × Arg)) (t : MT)
    (h : alookup "out" kwargs = none) :
    torch_function fn args kwargs (.rv (.mt t)) false false =
      .ok (.rv (.plain t.data)) := by
  unfold torch_function
  rw [h]
  rfl

/-- Witness for C5: `a + b` on two `MetaTensor`s with tracking globally
disabled yields a plain tensor. -/
theorem c5_witness :
    torch_function (.other "add") [Arg.mt ex_a, Arg.mt ex_b] []
      (.rv (.mt ex_raw_add)) false false =
      .ok (.rv (.plain ⟨0, [[5, 7, 9]]⟩)) :=
  c5_tracking_off_demotes_to_plain (.other "add") [Arg.mt ex_a, Arg.mt ex_b] []
    ex_raw_add rfl

example :
    torch_function .getitem [Arg.mt exBatch, Arg.idx (.int 1)] []
      (.rv (.mt exRet)) true false =
      .ok (.rv (.mt ⟨⟨0, [[1]]⟩, .dict ex_m1, false⟩)) := rfl

example :
    torch_function .getitem [Arg.mt exBatch, Arg.idx (.slice (some 0) (some 2) none)] []
      (.rv (.mt exRet)) true false =
      .ok (.rv (.mt ⟨⟨0, [[1]]⟩, .dict (list_data_collate [ex_m0, ex_m1]), true⟩)) := rfl

/-- C1 (failing input): indexing the example three-item batch with the
length-one slice `batch[0:1]` makes the code assign the one-element
Python list `[m0]` as the result's metadata and set `is_batch = False`
(lines 160-162 of `meta_tensor.py`); the subsequent
`ret.affine = ret.affine.to(ret.device)` at line 177 then raises
`TypeError`, because `ret.meta["affine"]` indexes a list with a string.
The claim instead says the single item's record `m0` is assigned
directly; the code slips on this sub-case. -/
theorem c1_len1_slice_raises_typeerror :
    torch_function .getitem [Arg.mt exBatch, Arg.idx (.slice (some 0) (some 1) none)] []
      (.rv (.mt exRet)) true false = .error .typeError := rfl

/-- C10: a single non-sequence raw result is returned as a single value,
and a tuple raw result as a tuple of the same length and order (lines
191-200 of `meta_tensor.py`); but a string raw result - a Python
`Sequence`, as the code's own comment at line 192 anticipates for
`__repr__` - is exploded into the list of its characters instead of
coming back as a string, changing the container kind (and breaking
`repr`, which must return a `str`). -/
theorem c10_container_kinds :
    (torch_function (.other "add") [Arg.mt ex_a, Arg.mt ex_b] []
        (.rv (.mt ex_raw_add)) true false =
        .ok (.rv (.mt ⟨⟨0, [[5, 7, 9]]⟩, .dict exMeta_a, false⟩))) ∧
    (torch_function (.other "op") [Arg.mt ex_a] []
        (.tupleR [.mt ex_raw_add, .plain exA0]) true false =
        .ok (.tupleR [.mt ⟨⟨0, [[5, 7, 9]]⟩, .dict exMeta_a, false⟩, .plain exA0])) ∧
    (torch_function (.other "repr") [Arg.mt ex_a] []
        (.str "ab") true false =
        .ok (.listR [.pystr "a", .pystr "b"])) :=
  ⟨rfl, rfl, rfl⟩

/-- Lifting lemma: a single non-sequence result is wrapped, processed by
the loop body once, and unwrapped. -/
theorem torch_function_rv (fn : Func) (args : List Arg) (kwargs : List (String × Arg))
    (tm tt : Bool) (v r : RVal) (memo2 : Option (List MetaDict))
    (hout : alookup "out" kwargs = none)
    (h : process_ret fn args kwargs tm tt 0 none v = .ok (r, memo2)) :
    torch_function fn args kwargs (.rv v) tm tt = .ok (.rv r) := by
  simp only [torch_function, update_meta, update_meta_list, hout, h]
  rfl

/-- Unfolding lemma for the tracked branch of the loop body: with
tracking on, the merged metadata is installed and the batch step and
affine device fix run. -/
theorem process_ret_tracked (fn : Func) (args : List Arg) (kwargs : List (String × Arg))
    (tm tt : Bool) (i : Nat) (memo : Option (List MetaDict)) (t : MT)
    (m : MetaData) (b : Bool)
    (htm : (tm || tt) = true)
    (hcm : copy_meta (flatten_meta_objs (args ++ kwargs.map Prod.snd)) = (m, b)) :
    process_ret fn args kwargs tm tt i memo (.mt t) =
      match batch_step fn args kwargs i memo { t with meta := m, is_batch := b } with
      | .error e => .error e
      | .ok (t2, memo2) =>
        match affine_to_device t2.meta t2.data.device with
        | .error e => .error e
        | .ok m2 => .ok (.mt { t2 with meta := m2 }, memo2) := by
  simp only [process_ret, htm, hcm, if_true]

/-- C2: on an intercepted `__getitem__` of a batch `MetaTensor` with
tracking enabled, a first index component equal to exactly
`slice(None, None, None)` or `Ellipsis` leaves the merged metadata and
`is_batch` unchanged (no per-item narrowing), and every other first
component takes the per-item narrowing path (lines 145-162 of
`meta_tensor.py`). -/
theorem c2_getitem_exempt_selectors :
    (∀ (args : List Arg) (kwargs : List (String × Arg)) (t : MT) (tm tt : Bool)
        (i0 : PyIndex) (d : MetaDict),
        alookup "out" kwargs = none →
        (tm || tt) = true →
        copy_meta (flatten_meta_objs (args ++ kwargs.map Prod.snd)) = (.dict d, true) →
        first_index args = .ok i0 →
        (i0 = fullSlice ∨ i0 = PyIndex.ellipsis) →
        affine_dict_to_device d t.data.device = .ok d →
        torch_function .getitem args kwargs (.rv (.mt t)) tm tt =
          .ok (.rv (.mt ⟨t.data, .dict d, true⟩))) ∧
    (∀ (args : List Arg) (kwargs : List (String × Arg)) (t : MT) (tm tt : Bool)
        (i0 : PyIndex) (d : MetaDict) (t2 : MT) (m2 : MetaData),
        alookup "out" kwargs = none →
        (tm || tt) = true →
        copy_meta (flatten_meta_objs (args ++ kwargs.map Prod.snd)) = (.dict d, true) →
        first_index args = .ok i0 →
        i0 ≠ fullSlice →
        i0 ≠ PyIndex.ellipsis →
        narrow_meta ⟨t.data, .dict d, true⟩ (decollate_batch d) i0 = .ok t2 →
        affine_to_device t2.meta t2.data.device = .ok m2 →
        torch_function .getitem args kwargs (.rv (.mt t)) tm tt =
          .ok (.rv (.mt { t2 with meta := m2 }))) := by
  constructor
  · intro args kwargs t tm tt i0 d hout htm hcm hfi hex haff
    apply torch_function_rv _ _ _ _ _ _ _ (some (decollate_batch d)) hout
    rw [process_ret_tracked _ _ _ _ _ 0 none _ _ _ htm hcm]
    simp only [batch_step, get_metas, hfi, if_pos hex, affine_to_device, haff, if_true]
  · intro args kwargs t tm tt i0 d t2 m2 hout htm hcm hfi hne1 hne2 hnarrow haff
    apply torch_function_rv _ _ _ _ _ _ _ (some (decollate_batch d)) hout
    rw [process_ret_tracked _ _ _ _ _ 0 none _ _ _ htm hcm]
    simp only [batch_step, get_metas, hfi,
      if_neg (not_or.mpr ⟨hne1, hne2⟩), hnarrow, haff, if_true]

/-- Witness for C2: on the example batch, `batch[:, 0]` (leading
full-range selector) keeps the collated metadata and `is_batch = true`,
while `batch[1]` (leading integer) narrows to item 1's record. -/
theorem c2_witness :
    (torch_function .getitem [Arg.mt exBatch, Arg.tup [fullSlice, .int 0]] []
        (.rv (.mt exRet)) true false =
        .ok (.rv (.mt ⟨⟨0, [[1]]⟩, .dict exBatchMeta, true⟩))) ∧
    (torch_function .getitem [Arg.mt exBatch, Arg.idx (.int 1)] []
        (.rv (.mt exRet)) true false =
        .ok (.rv (.mt ⟨⟨0, [[1]]⟩, .dict ex_m1, false⟩))) :=
  ⟨c2_getitem_exempt_selectors.1 [Arg.mt exBatch, Arg.tup [fullSlice, .int 0]] []
      exRet true false fullSlice exBatchMeta rfl rfl rfl rfl (Or.inl rfl) rfl,
   c2_getitem_exempt_selectors.2 [Arg.mt exBatch, Arg.idx (.int 1)] []
      exRet true false (.int 1) exBatchMeta ⟨⟨0, [[1]]⟩, .dict ex_m1, false⟩
      (.dict ex_m1) rfl rfl rfl rfl (by decide) (by decide) rfl rfl⟩

/-- C3: with tracking enabled, a `MetaTensor` result inherits its
metadata from the first non-empty record in the flattened operand list
(positional then keyword operands, expanded depth-first left-to-right);
later operands contribute nothing (lines 132-134 of `meta_tensor.py`
with `MetaObj._copy_meta` and `MetaObj.flatten_meta_objs` modelled from
the spec, sections 4.1 and 4.3 step 4c). -/
theorem c3_first_nonempty_meta_wins :
    (∀ (fn : Func) (args : List Arg) (kwargs : List (String × Arg)) (t : MT)
        (tm tt : Bool) (s : MT) (dd m2 : MetaDict),
        alookup "out" kwargs = none →
        (tm || tt) = true →
        (flatten_meta_objs (args ++ kwargs.map Prod.snd)).find?
          (fun s => metaNonEmpty s.meta) = some s →
        s.meta = .dict dd →
        s.is_batch = false →
        affine_dict_to_device dd t.data.device = .ok m2 →
        torch_function fn args kwargs (.rv (.mt t)) tm tt =
          .ok (.rv (.mt ⟨t.data, .dict m2, false⟩))) ∧
    (∀ (name : String) (args : List Arg) (kwargs : List (String × Arg)) (t : MT)
        (tm tt : Bool) (s : MT) (dd m2 : MetaDict),
        alookup "out" kwargs = none →
        (tm || tt) = true →
        (flatten_meta_objs (args ++ kwargs.map Prod.snd)).find?
          (fun s => metaNonEmpty s.meta) = some s →
        s.meta = .dict dd →
        s.is_batch = true →
        affine_dict_to_device dd t.data.device = .ok m2 →
        torch_function (.other name) args kwargs (.rv (.mt t)) tm tt =
          .ok (.rv (.mt ⟨t.data, .dict m2, true⟩))) := by
  constructor
  · intro fn args kwargs t tm tt s dd m2 hout htm hfind hsd hsb haff
    have hcm : copy_meta (flatten_meta_objs (args ++ kwargs.map Prod.snd)) =
        (.dict dd, false) := by
      simp only [copy_meta, hfind, hsd, hsb]
    apply torch_function_rv _ _ _ _ _ _ _ none hout
    rw [process_ret_tracked _ _ _ _ _ 0 none _ _ _ htm hcm]
    simp only [batch_step, Bool.false_eq_true, if_false, affine_to_device, haff]
  · intro name args kwargs t tm tt s dd m2 hout htm hfind hsd hsb haff
    have hcm : copy_meta (flatten_meta_objs (args ++ kwargs.map Prod.snd)) =
        (.dict dd, true) := by
      simp only [copy_meta, hfind, hsd, hsb]
    apply torch_function_rv _ _ _ _ _ _ _ (some (decollate_batch dd)) hout
    rw [process_ret_tracked _ _ _ _ _ 0 none _ _ _ htm hcm]
    simp only [batch_step, get_metas, affine_to_device, haff, if_true]

/-- Witness for C3: for `a + b` with `a`'s metadata non-empty, the
result's metadata equals `a`'s field for field - not `b`'s, and not a
union of the two (the records differ). -/
theorem c3_witness :
    (torch_function (.other "add") [Arg.mt ex_a, Arg.mt ex_b] []
        (.rv (.mt ex_raw_add)) true false =
        .ok (.rv (.mt ⟨⟨0, [[5, 7, 9]]⟩, .dict exMeta_a, false⟩))) ∧
    (torch_function (.other "add") [Arg.mt exBatch] []
        (.rv (.mt exRet)) true false =
        .ok (.rv (.mt ⟨⟨0, [[1]]⟩, .dict exBatchMeta, true⟩))) ∧
    exMeta_a ≠ exMeta_b :=
  ⟨c3_first_nonempty_meta_wins.1 (.other "add") [Arg.mt ex_a, Arg.mt ex_b] []
      ex_raw_add true false ex_a exMeta_a exMeta_a rfl rfl rfl rfl rfl rfl,
   c3_first_nonempty_meta_wins.2 "add" [Arg.mt exBatch] []
      exRet true false exBatch exBatchMeta exBatchMeta rfl rfl rfl rfl rfl rfl,
   by decide⟩

/-- C4: on an intercepted `unbind` of a batch `MetaTensor` with tracking
enabled, when the split dimension is 0 (positionally, by the `dim`
keyword, or omitted) the loop-position-`i` output receives the i-th
record of the decollated metadata and `is_batch` becomes false; a
non-zero split dimension leaves the ordinary merge result untouched
(lines 163-175 of `meta_tensor.py`).  The final conjunct runs the whole
interceptor on a three-item batch and shows each output paired with its
own item record. -/
theorem c4_unbind_dim0_splits_batch :
    (∀ (args : List Arg) (kwargs : List (String × Arg)) (t : MT) (tm tt : Bool)
        (i : Nat) (d mi m2 : MetaDict),
        (tm || tt) = true →
        copy_meta (flatten_meta_objs (args ++ kwargs.map Prod.snd)) = (.dict d, true) →
        unbind_dim_is_zero args kwargs = true →
        (decollate_batch d).get? i = some mi →
        affine_dict_to_device mi t.data.device = .ok m2 →
        process_ret .unbind args kwargs tm tt i none (.mt t) =
          .ok (.mt ⟨t.data, .dict m2, false⟩, some (decollate_batch d))) ∧
    (∀ (args : List Arg) (kwargs : List (String × Arg)) (t : MT) (tm tt : Bool)
        (i : Nat) (d m2 : MetaDict),
        (tm || tt) = true →
        copy_meta (flatten_meta_objs (args ++ kwargs.map Prod.snd)) = (.dict d, true) →
        unbind_dim_is_zero args kwargs = false →
        affine_dict_to_device d t.data.device = .ok m2 →
        process_ret .unbind args kwargs tm tt i none (.mt t) =
          .ok (.mt ⟨t.data, .dict m2, true⟩, some (decollate_batch d))) ∧
    (∀ a0 : Arg, unbind_dim_is_zero [a0] [] = true) ∧
    (∀ a0 : Arg, unbind_dim_is_zero [a0, Arg.int 0] [] = true) ∧
    (∀ a0 : Arg, unbind_dim_is_zero [a0] [("dim", Arg.int 0)] = true) ∧
    (torch_function .unbind [Arg.mt exBatch] []
        (.tupleR [.mt exRet, .mt exRet, .mt exRet]) true false =
        .ok (.tupleR [.mt ⟨⟨0, [[1]]⟩, .dict ex_m0, false⟩,
          .mt ⟨⟨0, [[1]]⟩, .dict ex_m1, false⟩,
          .mt ⟨⟨0, [[1]]⟩, .dict ex_m2, false⟩])) := by
  refine ⟨?_, ?_, fun a0 => rfl, fun a0 => rfl, fun a0 => rfl, rfl⟩
  · intro args kwargs t tm tt i d mi m2 htm hcm hdim hget haff
    rw [process_ret_tracked _ _ _ _ _ i none _ _ _ htm hcm]
    simp only [batch_step, get_metas, hdim, hget, affine_to_device, haff,
      eq_self_iff_true, if_true]
  · intro args kwargs t tm tt i d m2 htm hcm hdim haff
    rw [process_ret_tracked _ _ _ _ _ i none _ _ _ htm hcm]
    simp only [batch_step, get_metas, hdim, affine_to_device, haff,
      Bool.false_eq_true, if_false, eq_self_iff_true, if_true]

/-- Witness for C4: on the example batch, `unbind` with the dimension
omitted gives output 1 the record `m1` with `is_batch = false`, while
`unbind(dim=1)` leaves the merged batch metadata untouched. -/
theorem c4_witness :
    (process_ret .unbind [Arg.mt exBatch] [] true false 1 none (.mt exRet) =
        .ok (.mt ⟨⟨0, [[1]]⟩, .dict ex_m1, false⟩, some (decollate_batch exBatchMeta))) ∧
    (process_ret .unbind [Arg.mt exBatch, Arg.int 1] [] true false 0 none (.mt exRet) =
        .ok (.mt ⟨⟨0, [[1]]⟩, .dict exBatchMeta, true⟩, some (decollate_batch exBatchMeta))) :=
  ⟨c4_unbind_dim0_splits_batch.1 [Arg.mt exBatch] [] exRet true false 1
      exBatchMeta ex_m1 ex_m1 rfl rfl rfl rfl rfl,
   c4_unbind_dim0_splits_batch.2.1 [Arg.mt exBatch, Arg.int 1] [] exRet true false 0
      exBatchMeta exBatchMeta rfl rfl rfl rfl⟩

/-- Setting a key and looking it up yields the new value (replace-in-place
branch). -/
theorem lookup_map_set (k : String) (v : MetaVal) :
    ∀ d : MetaDict, (alookup k d).isSome →
      alookup k (d.map (fun kv => if kv.1 = k then (k, v) else kv)) = some v
  | [], h => by simp [alookup] at h
  | (ak, av) :: rest, h => by
    by_cases hk : ak = k
    · subst hk
      simp only [List.map_cons, if_pos rfl]
      simp [alookup]
    · have hrest : (alookup k rest).isSome := by
        simpa [alookup, if_neg (Ne.symm hk)] using h
      have ih := lookup_map_set k v rest hrest
      simp only [List.map_cons, if_neg hk]
      simp only [alookup, if_neg (Ne.symm hk)]
      exact ih

/-- Appending a fresh key and looking it up yields the new value. -/
theorem lookup_append_new (k : String) (v : MetaVal) :
    ∀ d : MetaDict, alookup k d = none → alookup k (d ++ [(k, v)]) = some v
  | [], _ => by simp [alookup]
  | (ak, av) :: rest, h => by
    by_cases hk : k = ak
    · simp [alookup, if_pos hk] at h
    · have hrest : alookup k rest = none := by
        simpa [alookup, if_neg hk] using h
      have ih := lookup_append_new k v rest hrest
      simp only [List.cons_append]
      simp only [alookup, if_neg hk]
      exact ih

/-- `setK` stores the value it is given. -/
theorem lookup_setK (d : MetaDict) (k : String) (v : MetaVal) :
    alookup k (setK d k v) = some v := by
  unfold setK
  by_cases h : (alookup k d).isSome
  · simpa [h] using lookup_map_set k v d h
  · have h0 : alookup k d = none := Option.not_isSome_iff_eq_none.mp h
    simpa [h] using lookup_append_new k v d h0

/-- Reading a reference just written yields the written dictionary. -/
theorem Heap.get_set_self (h : Heap) (r : Nat) (d : MetaDict) :
    (h.set r d).get r = d := by
  simp [Heap.set, Heap.get, alookup]

/-- Reading the reference just allocated yields the allocated
dictionary. -/
theorem Heap.get_alloc_self (h : Heap) (d : MetaDict) :
    (h.alloc d).1.get (h.alloc d).2 = d := by
  simp [Heap.alloc, Heap.get, alookup]

/-- Allocation does not disturb other references. -/
theorem Heap.get_alloc_ne (h : Heap) (d : MetaDict) (r : Nat) (hr : r ≠ h.next) :
    (h.alloc d).1.get r = h.get r := by
  simp [Heap.alloc, Heap.get, alookup, if_neg hr]

/-- The metadata record selected by lines 87-90 of `meta_tensor.py`: the
explicit `meta` argument's record, else the source's record, else the
fresh empty record. -/
def selected_meta (hp : Heap) (x : Src) (mArg : Option Nat) : MetaDict :=
  match mArg with
  | some rm => hp.get rm
  | none =>
    match x with
    | .metaT m => hp.get m.metaRef
    | .plainT _ => []

/-- Caller references are valid: any supplied metadata reference and the
source's metadata reference were previously allocated. -/
def refsOk (hp : Heap) (x : Src) (mArg : Option Nat) : Bool :=
  (match mArg with
   | some rm => Nat.blt rm hp.next
   | none => true) &&
  (match x with
   | .metaT m => Nat.blt m.metaRef hp.next
   | .plainT _ => true)

/-- Wrapping a plain tensor with no explicit affine and no explicit meta
yields exactly the identity affine and nothing else. -/
theorem init_plain_default_affine (hp : Heap) (t0 : STensor) (h' : Heap)
    (t : HMT) (w : Bool)
    (hinit : metatensor_init hp (.plainT t0) none none = .ok (h', t, w)) :
    h'.get t.metaRef = [("affine", .leaf (.tens (eye4 t0.device)))] ∧
      t.data = t0 ∧ w = false := by
  simp [metatensor_init, init_core, Heap.alloc, Heap.get, Heap.set, alookup,
    setK, affine_dict_to_device, affine_val_to, Src.dataOf, STensor.toD] at hinit
  obtain ⟨hh, ht, hw⟩ := hinit
  subst hh
  subst ht
  exact ⟨by simp [Heap.get, alookup, eye4], rfl, hw⟩

/-- An explicitly supplied affine argument always wins: it is stored
(moved to the tensor's device), and the warning is emitted exactly when
the selected metadata already contained an affine. -/
theorem init_affine_arg_wins (hp : Heap) (x : Src) (A : STensor) (mArg : Option Nat)
    (h' : Heap) (t : HMT) (w : Bool)
    (hrefs : refsOk hp x mArg = true)
    (hinit : metatensor_init hp x (some A) mArg = .ok (h', t, w)) :
    alookup "affine" (h'.get t.metaRef) =
      some (.leaf (.tens (A.toD (Src.dataOf x).device))) ∧
      w = (alookup "affine" (selected_meta hp x mArg)).isSome := by
  cases x with
  | plainT t0 =>
    cases mArg with
    | none =>
      simp only [metatensor_init, init_core, Heap.get_alloc_self, Heap.get_set_self,
        lookup_setK, affine_dict_to_device, affine_val_to, alookup, Src.dataOf,
        Option.isSome_none, Bool.and_false, Option.isSome_some, Bool.and_true,
        Except.ok.injEq, Prod.mk.injEq] at hinit
      obtain ⟨hh, ht, hw⟩ := hinit
      subst hh
      subst ht
      refine ⟨?_, by simp [selected_meta, alookup, hw]⟩
      simp [Heap.get_set_self, lookup_setK, Src.dataOf]
    | some rm =>
      have hne : rm ≠ hp.next := by
        simp only [refsOk, Bool.and_eq_true, Nat.blt_eq] at hrefs
        exact Nat.ne_of_lt hrefs.1
      simp only [metatensor_init, init_core, Heap.get_alloc_self, Heap.get_set_self,
        Heap.get_alloc_ne hp [] rm hne, lookup_setK, affine_dict_to_device,
        affine_val_to, Src.dataOf, Option.isSome_some, Bool.true_and,
        Except.ok.injEq, Prod.mk.injEq] at hinit
      obtain ⟨hh, ht, hw⟩ := hinit
      subst hh
      subst ht
      refine ⟨?_, by simp [selected_meta, hw]⟩
      simp [Heap.get_set_self, lookup_setK, Src.dataOf]
  | metaT m =>
    have hnem : m.metaRef ≠ hp.next := by
      simp only [refsOk, Bool.and_eq_true, Nat.blt_eq] at hrefs
      exact Nat.ne_of_lt hrefs.2
    cases mArg with
    | none =>
      simp only [metatensor_init, init_core, Heap.get_alloc_self, Heap.get_set_self,
        Heap.get_alloc_ne hp [] m.metaRef hnem, lookup_setK, affine_dict_to_device,
        affine_val_to, Src.dataOf, Option.isSome_some, Bool.true_and,
        Except.ok.injEq, Prod.mk.injEq] at hinit
      obtain ⟨hh, ht, hw⟩ := hinit
      subst hh
      subst ht
      refine ⟨?_, by simp [selected_meta, hw]⟩
      simp [Heap.get_set_self, lookup_setK, Src.dataOf]
    | some rm =>
      have hne : rm ≠ hp.next := by
        simp only [refsOk, Bool.and_eq_true, Nat.blt_eq] at hrefs
        exact Nat.ne_of_lt hrefs.1
      simp only [metatensor_init, init_core, Heap.get_alloc_self, Heap.get_set_self,
        Heap.get_alloc_ne hp [] rm hne, lookup_setK, affine_dict_to_device,
        affine_val_to, Src.dataOf, Option.isSome_some, Bool.true_and,
        Except.ok.injEq, Prod.mk.injEq] at hinit
      obtain ⟨hh, ht, hw⟩ := hinit
      subst hh
      subst ht
      refine ⟨?_, by simp [selected_meta, hw]⟩
      simp [Heap.get_set_self, lookup_setK, Src.dataOf]

/-- With no explicit affine argument, a pre-existing affine in the
selected metadata wins, and no warning is emitted. -/
theorem init_meta_affine_wins (hp : Heap) (x : Src) (B : STensor) (mArg : Option Nat)
    (h' : Heap) (t : HMT) (w : Bool)
    (hrefs : refsOk hp x mArg = true)
    (hsel : alookup "affine" (selected_meta hp x mArg) = some (.leaf (.tens B)))
    (hinit : metatensor_init hp x none mArg = .ok (h', t, w)) :
    alookup "affine" (h'.get t.metaRef) =
      some (.leaf (.tens (B.toD (Src.dataOf x).device))) ∧ w = false := by
  cases x with
  | plainT t0 =>
    cases mArg with
    | none => simp [selected_meta, alookup] at hsel
    | some rm =>
      have hne : rm ≠ hp.next := by
        simp only [refsOk, Bool.and_eq_true, Nat.blt_eq] at hrefs
        exact Nat.ne_of_lt hrefs.1
      simp only [selected_meta] at hsel
      simp only [metatensor_init, init_core, Heap.get_alloc_self, Heap.get_set_self,
        Heap.get_alloc_ne hp [] rm hne, hsel, lookup_setK, affine_dict_to_device,
        affine_val_to, Src.dataOf, Option.isSome_some, Option.isSome_none,
        Bool.false_and, if_true, Except.ok.injEq, Prod.mk.injEq] at hinit
      obtain ⟨hh, ht, hw⟩ := hinit
      subst hh
      subst ht
      exact ⟨by simp [Heap.get_set_self, lookup_setK, Src.dataOf], hw.symm⟩
  | metaT m =>
    have hnem : m.metaRef ≠ hp.next := by
      simp only [refsOk, Bool.and_eq_true, Nat.blt_eq] at hrefs
      exact Nat.ne_of_lt hrefs.2
    cases mArg with
    | none =>
      simp only [selected_meta] at hsel
      simp only [metatensor_init, init_core, Heap.get_alloc_self, Heap.get_set_self,
        Heap.get_alloc_ne hp [] m.metaRef hnem, hsel, lookup_setK,
        affine_dict_to_device, affine_val_to, Src.dataOf, Option.isSome_some,
        Bool.false_and, if_true, Except.ok.injEq, Prod.mk.injEq] at hinit
      obtain ⟨hh, ht, hw⟩ := hinit
      subst hh
      subst ht
      exact ⟨by simp [Heap.get_set_self, lookup_setK, Src.dataOf], hw.symm⟩
    | some rm =>
      have hne : rm ≠ hp.next := by
        simp only [refsOk, Bool.and_eq_true, Nat.blt_eq] at hrefs
        exact Nat.ne_of_lt hrefs.1
      simp only [selected_meta] at hsel
      simp only [metatensor_init, init_core, Heap.get_alloc_self, Heap.get_set_self,
        Heap.get_alloc_ne hp [] rm hne, hsel, lookup_setK, affine_dict_to_device,
        affine_val_to, Src.dataOf, Option.isSome_some, Bool.false_and, if_true,
        Except.ok.injEq, Prod.mk.injEq] at hinit
      obtain ⟨hh, ht, hw⟩ := hinit
      subst hh
      subst ht
      exact ⟨by simp [Heap.get_set_self, lookup_setK, Src.dataOf], hw.symm⟩

/-- With no explicit affine and no affine in the selected metadata, a
`MetaTensor` source's own affine wins, and no warning is emitted. -/
theorem init_source_affine_wins (hp : Heap) (m : HMT) (rm : Nat) (C : STensor)
    (h' : Heap) (t : HMT) (w : Bool)
    (hrm : rm < hp.next) (hm : m.metaRef < hp.next)
    (hsel : alookup "affine" (hp.get rm) = none)
    (hx : alookup "affine" (hp.get m.metaRef) = some (.leaf (.tens C)))
    (hinit : metatensor_init hp (.metaT m) none (some rm) = .ok (h', t, w)) :
    alookup "affine" (h'.get t.metaRef) =
      some (.leaf (.tens (C.toD m.data.device))) ∧ w = false := by
  have hne : rm ≠ hp.next := Nat.ne_of_lt hrm
  have hnem : m.metaRef ≠ hp.next := Nat.ne_of_lt hm
  simp only [metatensor_init, init_core, Heap.get_alloc_self, Heap.get_set_self,
    Heap.get_alloc_ne hp [] rm hne, Heap.get_alloc_ne hp [] m.metaRef hnem,
    hsel, hx, lookup_setK, affine_dict_to_device, affine_val_to, Src.dataOf,
    Option.isSome_none, Option.isSome_some, Bool.false_and, Bool.false_eq_true,
    if_false, Except.ok.injEq, Prod.mk.injEq] at hinit
  obtain ⟨hh, ht, hw⟩ := hinit
  subst hh
  subst ht
  exact ⟨by simp [Heap.get_set_self, lookup_setK, Src.dataOf], hw.symm⟩

/-- C6: the constructor resolves the affine by the priority chain -
explicit `affine` argument (with a non-fatal warning exactly when the
selected metadata already has an affine, whose value is discarded), else
the selected metadata's `affine` entry, else the `MetaTensor` source's
own affine, else the default 4x4 identity; wrapping a plain tensor with
no arguments yields metadata that is exactly the identity affine entry
(lines 78-106 of `meta_tensor.py`). -/
theorem c6_affine_resolution_priority :
    (∀ (hp : Heap) (x : Src) (A : STensor) (mArg : Option Nat)
        (h' : Heap) (t : HMT) (w : Bool),
        refsOk hp x mArg = true →
        metatensor_init hp x (some A) mArg = .ok (h', t, w) →
        alookup "affine" (h'.get t.metaRef) =
          some (.leaf (.tens (A.toD (Src.dataOf x).device))) ∧
          w = (alookup "affine" (selected_meta hp x mArg)).isSome) ∧
    (∀ (hp : Heap) (x : Src) (B : STensor) (mArg : Option Nat)
        (h' : Heap) (t : HMT) (w : Bool),
        refsOk hp x mArg = true →
        alookup "affine" (selected_meta hp x mArg) = some (.leaf (.tens B)) →
        metatensor_init hp x none mArg = .ok (h', t, w) →
        alookup "affine" (h'.get t.metaRef) =
          some (.leaf (.tens (B.toD (Src.dataOf x).device))) ∧ w = false) ∧
    (∀ (hp : Heap) (m : HMT) (rm : Nat) (C : STensor)
        (h' : Heap) (t : HMT) (w : Bool),
        rm < hp.next → m.metaRef < hp.next →
        alookup "affine" (hp.get rm) = none →
        alookup "affine" (hp.get m.metaRef) = some (.leaf (.tens C)) →
        metatensor_init hp (.metaT m) none (some rm) = .ok (h', t, w) →
        alookup "affine" (h'.get t.metaRef) =
          some (.leaf (.tens (C.toD m.data.device))) ∧ w = false) ∧
    (∀ (hp : Heap) (t0 : STensor) (h' : Heap) (t : HMT) (w : Bool),
        metatensor_init hp (.plainT t0) none none = .ok (h', t, w) →
        h'.get t.metaRef = [("affine", .leaf (.tens (eye4 t0.device)))] ∧
          t.data = t0 ∧ w = false) :=
  ⟨init_affine_arg_wins, init_meta_affine_wins, init_source_affine_wins,
   init_plain_default_affine⟩

/-- Example heap for the constructor witnesses: reference 0 holds
`exMeta_a` (which contains an affine), reference 1 an empty record. -/
def hpEx : Heap := ⟨2, [(0, exMeta_a), (1, [])]⟩

/-- Example plain source tensor for the constructor witnesses. -/
def exPlain9 : STensor := ⟨0, [[9]]⟩

/-- Heap component of a successful constructor run. -/
def initHeapOf (r : Except Err (Heap × HMT × Bool)) : Heap :=
  match r with
  | .ok (h, _, _) => h
  | .error _ => ⟨0, []⟩

/-- Tensor component of a successful constructor run. -/
def initMTOf (r : Except Err (Heap × HMT × Bool)) : HMT :=
  match r with
  | .ok (_, t, _) => t
  | .error _ => ⟨⟨0, []⟩, 0⟩

/-- Warning flag of a successful constructor run. -/
def initWarnOf (r : Except Err (Heap × HMT × Bool)) : Bool :=
  match r with
  | .ok (_, _, w) => w
  | .error _ => false

/-- Witness for C6: all four priority cases at concrete inputs - the
explicit argument overrides an existing affine with (only) a warning;
the selected metadata's affine wins absent an argument; the source
tensor's affine wins when the explicit meta has none; and a bare plain
wrap gets exactly the identity affine. -/
theorem c6_witness :
    (alookup "affine"
        ((initHeapOf (metatensor_init hpEx (.plainT exPlain9) (some exAffB) (some 0))).get
          (initMTOf (metatensor_init hpEx (.plainT exPlain9) (some exAffB) (some 0))).metaRef) =
        some (.leaf (.tens (exAffB.toD 0))) ∧
      initWarnOf (metatensor_init hpEx (.plainT exPlain9) (some exAffB) (some 0)) = true) ∧
    (alookup "affine"
        ((initHeapOf (metatensor_init hpEx (.plainT exPlain9) none (some 0))).get
          (initMTOf (metatensor_init hpEx (.plainT exPlain9) none (some 0))).metaRef) =
        some (.leaf (.tens (exAffA.toD 0))) ∧
      initWarnOf (metatensor_init hpEx (.plainT exPlain9) none (some 0)) = false) ∧
    (alookup "affine"
        ((initHeapOf (metatensor_init hpEx (.metaT ⟨⟨0, [[3]]⟩, 0⟩) none (some 1))).get
          (initMTOf (metatensor_init hpEx (.metaT ⟨⟨0, [[3]]⟩, 0⟩) none (some 1))).metaRef) =
        some (.leaf (.tens (exAffA.toD 0))) ∧
      initWarnOf (metatensor_init hpEx (.metaT ⟨⟨0, [[3]]⟩, 0⟩) none (some 1)) = false) ∧
    ((initHeapOf (metatensor_init hpEx (.plainT exPlain9) none none)).get
        (initMTOf (metatensor_init hpEx (.plainT exPlain9) none none)).metaRef =
        [("affine", .leaf (.tens (eye4 0)))]) := by
  refine ⟨⟨?_, ?_⟩, ⟨?_, ?_⟩, ⟨?_, ?_⟩, ?_⟩
  · exact (c6_affine_resolution_priority.1 hpEx (.plainT exPlain9) exAffB (some 0)
      _ _ _ rfl rfl).1
  · exact (c6_affine_resolution_priority.1 hpEx (.plainT exPlain9) exAffB (some 0)
      _ _ _ rfl rfl).2.trans rfl
  · exact (c6_affine_resolution_priority.2.1 hpEx (.plainT exPlain9) exAffA (some 0)
      _ _ _ rfl rfl rfl).1
  · exact (c6_affine_resolution_priority.2.1 hpEx (.plainT exPlain9) exAffA (some 0)
      _ _ _ rfl rfl rfl).2
  · exact (c6_affine_resolution_priority.2.2.1 hpEx ⟨⟨0, [[3]]⟩, 0⟩ 1 exAffA
      _ _ _ (by decide) (by decide) rfl rfl rfl).1
  · exact (c6_affine_resolution_priority.2.2.1 hpEx ⟨⟨0, [[3]]⟩, 0⟩ 1 exAffA
      _ _ _ (by decide) (by decide) rfl rfl rfl).2
  · exact (c6_affine_resolution_priority.2.2.2 hpEx exPlain9 _ _ _ rfl).1

/-- A successful constructor run returns the reference chosen by
`init_core`. -/
theorem metatensor_init_metaRef (hp : Heap) (x : Src) (aArg : Option STensor)
    (mArg : Option Nat) (h' : Heap) (t : HMT) (w : Bool)
    (h : metatensor_init hp x aArg mArg = .ok (h', t, w)) :
    ∃ h1 w1, init_core hp x aArg mArg = .ok (h1, t.metaRef, w1) := by
  unfold metatensor_init at h
  cases hc : init_core hp x aArg mArg with
  | error e => rw [hc] at h; exact Except.noConfusion h
  | ok trip =>
    obtain ⟨h1, ref, w1⟩ := trip
    rw [hc] at h
    split at h
    · exact Except.noConfusion h
    · rename_i h1b refb wb heqb
      simp only [Except.ok.injEq, Prod.mk.injEq] at heqb
      obtain ⟨e1, e2, e3⟩ := heqb
      split at h
      · exact Except.noConfusion h
      · simp only [Except.ok.injEq, Prod.mk.injEq] at h
        obtain ⟨-, ht, -⟩ := h
        rw [← ht]
        exact ⟨h1, w1, by rw [e2]⟩

/-- For a `MetaTensor` source with an explicit meta argument,
`init_core` returns exactly that reference (no copy). -/
theorem init_core_metaT_ref_some (hp : Heap) (m : HMT) (aArg : Option STensor)
    (rm : Nat) (h1 : Heap) (ref : Nat) (w1 : Bool)
    (h : init_core hp (.metaT m) aArg (some rm) = .ok (h1, ref, w1)) :
    ref = rm := by
  simp only [init_core] at h
  split at h
  · exact Except.noConfusion h
  · simp only [Except.ok.injEq, Prod.mk.injEq] at h
    exact h.2.1.symm

/-- For a `MetaTensor` source without an explicit meta argument,
`init_core` returns the source's own reference (aliasing). -/
theorem init_core_metaT_ref_none (hp : Heap) (m : HMT) (aArg : Option STensor)
    (h1 : Heap) (ref : Nat) (w1 : Bool)
    (h : init_core hp (.metaT m) aArg none = .ok (h1, ref, w1)) :
    ref = m.metaRef := by
  simp only [init_core] at h
  split at h
  · exact Except.noConfusion h
  · simp only [Except.ok.injEq, Prod.mk.injEq] at h
    exact h.2.1.symm

/-- For a plain tensor source, `init_core` returns the reference freshly
allocated by the deep copy, namely `hp.next + 1`. -/
theorem init_core_plainT_ref (hp : Heap) (t0 : STensor) (aArg : Option STensor)
    (mArg : Option Nat) (h1 : Heap) (ref : Nat) (w1 : Bool)
    (h : init_core hp (.plainT t0) aArg mArg = .ok (h1, ref, w1)) :
    ref = hp.next + 1 := by
  simp only [init_core] at h
  split at h
  · exact Except.noConfusion h
  · rename_i h2 heq
    have hnext : h2.next = hp.next + 1 := by
      split at heq <;>
        first
          | (injection heq with heq2
             rw [← heq2]
             rfl)
          | (split at heq <;>
              (injection heq with heq2
               rw [← heq2]
               rfl))
    simp only [Except.ok.injEq, Prod.mk.injEq] at h
    rw [← h.2.1, Heap.alloc, ← hnext]

/-- C9 counterexample: with an explicitly supplied meta reference (0)
and a plain tensor source, the constructed tensor's metadata reference
is the freshly copied 3, not 0 - the explicit mapping is deep-copied,
not adopted verbatim (line 104-105 of `meta_tensor.py` deep-copies
whenever `x` is a plain `torch.Tensor`, even when `meta` was given). -/
theorem c9_counterexample :
    initMTOf (metatensor_init hpEx (.plainT exPlain9) none (some 0)) =
      ⟨exPlain9, 3⟩ ∧ (3 : Nat) ≠ 0 :=
  ⟨rfl, by decide⟩

/-- C9 (amended): an explicitly supplied meta mapping is adopted by
reference when the source is a `MetaTensor`; absent an explicit meta a
`MetaTensor` source's record is adopted by reference (both tensors alias
the same record); and the metadata is deep-copied onto a fresh record
exactly when the source is a plain tensor - in that case even an
explicitly supplied mapping is copied, not aliased. -/
theorem c9_meta_adoption_and_deep_copy :
    (∀ (hp : Heap) (m : HMT) (aArg : Option STensor) (rm : Nat)
        (h' : Heap) (t : HMT) (w : Bool),
        metatensor_init hp (.metaT m) aArg (some rm) = .ok (h', t, w) →
        t.metaRef = rm) ∧
    (∀ (hp : Heap) (m : HMT) (aArg : Option STensor)
        (h' : Heap) (t : HMT) (w : Bool),
        metatensor_init hp (.metaT m) aArg none = .ok (h', t, w) →
        t.metaRef = m.metaRef) ∧
    (∀ (hp : Heap) (t0 : STensor) (aArg : Option STensor) (mArg : Option Nat)
        (h' : Heap) (t : HMT) (w : Bool),
        metatensor_init hp (.plainT t0) aArg mArg = .ok (h', t, w) →
        t.metaRef = hp.next + 1 ∧ (heapWf hp → t.metaRef ∉ hp.dom)) := by
  refine ⟨?_, ?_, ?_⟩
  · intro hp m aArg rm h' t w h
    obtain ⟨h1, w1, hc⟩ := metatensor_init_metaRef hp _ aArg (some rm) h' t w h
    exact init_core_metaT_ref_some hp m aArg rm h1 t.metaRef w1 hc
  · intro hp m aArg h' t w h
    obtain ⟨h1, w1, hc⟩ := metatensor_init_metaRef hp _ aArg none h' t w h
    exact init_core_metaT_ref_none hp m aArg h1 t.metaRef w1 hc
  · intro hp t0 aArg mArg h' t w h
    obtain ⟨h1, w1, hc⟩ := metatensor_init_metaRef hp _ aArg mArg h' t w h
    have href := init_core_plainT_ref hp t0 aArg mArg h1 t.metaRef w1 hc
    refine ⟨href, fun hwf hmem => ?_⟩
    have := hwf _ hmem
    omega

/-- Witness for the amended C9: with a `MetaTensor` source the explicit
reference 1 is adopted; without an explicit meta the source's reference
0 is aliased; wrapping a plain tensor deep-copies onto the fresh
reference 3, outside the original heap domain. -/
theorem c9_witness :
    ((initMTOf (metatensor_init hpEx (.metaT ⟨⟨0, [[3]]⟩, 0⟩) none (some 1))).metaRef = 1) ∧
    ((initMTOf (metatensor_init hpEx (.metaT ⟨⟨0, [[3]]⟩, 0⟩) none none)).metaRef = 0) ∧
    ((initMTOf (metatensor_init hpEx (.plainT exPlain9) none none)).metaRef = 3 ∧
      (initMTOf (metatensor_init hpEx (.plainT exPlain9) none none)).metaRef ∉ hpEx.dom) := by
  refine ⟨?_, ?_, ?_, ?_⟩
  · exact c9_meta_adoption_and_deep_copy.1 hpEx ⟨⟨0, [[3]]⟩, 0⟩ none 1 _ _ _ rfl
  · exact c9_meta_adoption_and_deep_copy.2.1 hpEx ⟨⟨0, [[3]]⟩, 0⟩ none _ _ _ rfl
  · exact (c9_meta_adoption_and_deep_copy.2.2 hpEx exPlain9 none none _ _ _ rfl).1.trans rfl
  · exact (c9_meta_adoption_and_deep_copy.2.2 hpEx exPlain9 none none _ _ _ rfl).2
      (show ∀ r ∈ hpEx.dom, r < hpEx.next by decide)

/-- Moving a stacked tensor to a device puts every element on that
device. -/
theorem leafTensTo_all_onDev (dev : Nat) :
    ∀ (vs vs2 : List LeafVal), leafTensTo vs dev = some vs2 →
      vs2.all (fun l => leafOnDev l dev) = true
  | [], vs2, h => by
      simp only [leafTensTo, Option.some.injEq] at h
      subst h; rfl
  | .tens t :: rest, vs2, h => by
      simp only [leafTensTo] at h
      cases hr : leafTensTo rest dev with
      | none => simp only [hr] at h; exact Option.noConfusion h
      | some r =>
        simp only [hr, Option.some.injEq] at h
        subst h
        have ih := leafTensTo_all_onDev dev rest r hr
        simp only [List.all_cons, leafOnDev, STensor.toD, beq_self_eq_true,
          Bool.true_and]
        exact ih
  | .str s :: rest, vs2, h => by
      simp only [leafTensTo] at h
      exact Option.noConfusion h
  | .int n :: rest, vs2, h => by
      simp only [leafTensTo] at h
      exact Option.noConfusion h

/-- A value returned by the affine device move resides on that device. -/
theorem affine_val_to_onDev (v v2 : MetaVal) (dev : Nat)
    (h : affine_val_to v dev = .ok v2) : valOnDev v2 dev = true := by
  cases v with
  | leaf l =>
    cases l with
    | str s => exact Except.noConfusion h
    | int n => exact Except.noConfusion h
    | tens a =>
      simp only [affine_val_to, Except.ok.injEq] at h
      subst h
      simp [valOnDev, STensor.toD]
  | stacked vs =>
    simp only [affine_val_to] at h
    cases hl : leafTensTo vs dev with
    | none => simp only [hl] at h; exact Except.noConfusion h
    | some vs2b =>
      simp only [hl, Except.ok.injEq] at h
      subst h
      simpa [valOnDev] using leafTensTo_all_onDev dev vs vs2b hl

/-- A dictionary returned by the affine device fix satisfies the device
invariant. -/
theorem affine_dict_to_device_devOk (d d2 : MetaDict) (dev : Nat)
    (h : affine_dict_to_device d dev = .ok d2) : dictAffDevOk d2 dev = true := by
  simp only [affine_dict_to_device] at h
  cases ha : alookup "affine" d with
  | none => simp only [ha] at h; exact Except.noConfusion h
  | some v =>
    simp only [ha] at h
    cases hv : affine_val_to v dev with
    | error e => simp only [hv] at h; exact Except.noConfusion h
    | ok v2 =>
      simp only [hv, Except.ok.injEq] at h
      subst h
      simp only [dictAffDevOk, lookup_setK]
      exact affine_val_to_onDev v v2 dev hv

/-- A `meta` attribute returned by the affine device fix satisfies the
device invariant for an owner on that device. -/
theorem affine_to_device_devOk (m m2 : MetaData) (dev : Nat)
    (h : affine_to_device m dev = .ok m2) (s : STensor) (b : Bool)
    (hs : s.device = dev) : mtAffDevOk ⟨s, m2, b⟩ = true := by
  cases m with
  | pylist ds => exact Except.noConfusion h
  | dict d =>
    simp only [affine_to_device] at h
    cases hd : affine_dict_to_device d dev with
    | error e => simp only [hd] at h; exact Except.noConfusion h
    | ok d2 =>
      simp only [hd, Except.ok.injEq] at h
      subst h
      simp only [mtAffDevOk, hs]
      exact affine_dict_to_device_devOk d d2 dev hd

/-- Every `MetaTensor` produced by the loop body satisfies the affine
device invariant. -/
theorem process_ret_devOk (fn : Func) (args : List Arg)
    (kwargs : List (String × Arg)) (tm tt : Bool) (i : Nat)
    (memo : Option (List MetaDict)) (r r2 : RVal)
    (memo2 : Option (List MetaDict)) (t : MT)
    (h : process_ret fn args kwargs tm tt i memo r = .ok (r2, memo2))
    (ht : RVal.mt t = r2) : mtAffDevOk t = true := by
  cases r with
  | plain s =>
    simp only [process_ret, Except.ok.injEq, Prod.mk.injEq] at h
    rw [← h.1] at ht
    exact RVal.noConfusion ht
  | pystr s =>
    simp only [process_ret, Except.ok.injEq, Prod.mk.injEq] at h
    rw [← h.1] at ht
    exact RVal.noConfusion ht
  | mt t0 =>
    simp only [process_ret] at h
    by_cases htm : (tm || tt) = true
    · simp only [htm, if_true] at h
      split at h
      · exact Except.noConfusion h
      · rename_i t2 memo3 heqb
        split at h
        · exact Except.noConfusion h
        · rename_i m2 heqa
          simp only [Except.ok.injEq, Prod.mk.injEq] at h
          rw [← h.1] at ht
          have ht2 : t = { t2 with meta := m2 } := (RVal.mt.injEq _ _).mp ht
          subst ht2
          exact affine_to_device_devOk t2.meta m2 t2.data.device heqa t2.data
            t2.is_batch rfl
    · simp only [htm, if_false, Bool.false_eq_true, Except.ok.injEq,
        Prod.mk.injEq] at h
      rw [← h.1] at ht
      exact RVal.noConfusion ht

/-- Every `MetaTensor` in a successful `update_meta` output satisfies
the affine device invariant. -/
theorem update_meta_list_devOk (fn : Func) (args : List Arg)
    (kwargs : List (String × Arg)) (tm tt : Bool) :
    ∀ (rets : List RVal) (i : Nat) (memo : Option (List MetaDict))
      (out : List RVal),
      update_meta_list fn args kwargs tm tt i memo rets = .ok out →
      ∀ t : MT, RVal.mt t ∈ out → mtAffDevOk t = true
  | [], i, memo, out, h, t, hmem => by
      simp only [update_meta_list, Except.ok.injEq] at h
      subst h
      exact absurd hmem (List.not_mem_nil _)
  | r :: rest, i, memo, out, h, t, hmem => by
      simp only [update_meta_list] at h
      cases hp1 : process_ret fn args kwargs tm tt i memo r with
      | error e => simp only [hp1] at h; exact Except.noConfusion h
      | ok pr =>
        obtain ⟨r2, memo2⟩ := pr
        simp only [hp1] at h
        cases hrec : update_meta_list fn args kwargs tm tt (i + 1) memo2 rest with
        | error e => simp only [hrec] at h; exact Except.noConfusion h
        | ok out2 =>
          simp only [hrec, Except.ok.injEq] at h
          subst h
          rcases List.mem_cons.mp hmem with hhd | htl
          · exact process_ret_devOk fn args kwargs tm tt i memo r r2 memo2 t hp1 hhd
          · exact update_meta_list_devOk fn args kwargs tm tt rest (i + 1) memo2
              out2 hrec t htl

/-- A successfully constructed tensor satisfies the affine device
invariant. -/
theorem init_affDevOk (hp : Heap) (x : Src) (aArg : Option STensor)
    (mArg : Option Nat) (h' : Heap) (t : HMT) (w : Bool)
    (h : metatensor_init hp x aArg mArg = .ok (h', t, w)) :
    dictAffDevOk (h'.get t.metaRef) t.data.device = true := by
  unfold metatensor_init at h
  cases hc : init_core hp x aArg mArg with
  | error e => rw [hc] at h; exact Except.noConfusion h
  | ok trip =>
    obtain ⟨h1, ref, w1⟩ := trip
    rw [hc] at h
    split at h
    · exact Except.noConfusion h
    · rename_i h1b refb wb heqb
      split at h
      · exact Except.noConfusion h
      · rename_i d2 heqa
        simp only [Except.ok.injEq, Prod.mk.injEq] at h
        obtain ⟨hh, ht, hw⟩ := h
        rw [← hh, ← ht]
        simp only [Heap.get_set_self]
        exact affine_dict_to_device_devOk _ d2 _ heqa

/-- All-tensor stacks can always be moved to a device. -/
theorem leafTensTo_of_all_tens (dev : Nat) :
    ∀ vs : List LeafVal,
      vs.all (fun l => match l with | .tens _ => true | _ => false) = true →
      ∃ vs2, leafTensTo vs dev = some vs2
  | [], _ => ⟨[], rfl⟩
  | .tens t :: rest, h => by
      obtain ⟨r, hr⟩ := leafTensTo_of_all_tens dev rest (by simpa using h)
      exact ⟨.tens (t.toD dev) :: r, by simp [leafTensTo, hr]⟩
  | .str s :: rest, h => by simp [List.all_cons] at h
  | .int n :: rest, h => by simp [List.all_cons] at h

/-- After `MetaTensor._copy_attr`, a tensor-valued attribute resides on
the owner's device. -/
theorem copy_attr_fix_devOk (v : MetaVal) (dev : Nat)
    (h : is_tensor_like v = true) :
    valOnDev (copy_attr_fix v dev) dev = true := by
  cases v with
  | leaf l =>
    cases l with
    | str s => simp [is_tensor_like] at h
    | int n => simp [is_tensor_like] at h
    | tens a => simp [copy_attr_fix, valOnDev, STensor.toD]
  | stacked vs =>
    obtain ⟨vs2, hvs⟩ := leafTensTo_of_all_tens dev vs
      (by simpa [is_tensor_like] using h)
    simp only [copy_attr_fix, hvs, valOnDev]
    exact leafTensTo_all_onDev dev vs vs2 hvs

/-- C8: the affine stored in metadata always resides on the owning
tensor's device - after construction (line 106 of `meta_tensor.py`),
after every tensor-valued attribute copy (lines 108-112), and for every
`MetaTensor` element of a successful intercepted operation's output
(line 177). -/
theorem c8_affine_device_invariant :
    (∀ (hp : Heap) (x : Src) (aArg : Option STensor) (mArg : Option Nat)
        (h' : Heap) (t : HMT) (w : Bool),
        metatensor_init hp x aArg mArg = .ok (h', t, w) →
        dictAffDevOk (h'.get t.metaRef) t.data.device = true) ∧
    (∀ (v : MetaVal) (dev : Nat), is_tensor_like v = true →
        valOnDev (copy_attr_fix v dev) dev = true) ∧
    (∀ (fn : Func) (args : List Arg) (kwargs : List (String × Arg))
        (tm tt : Bool) (rets : List RVal) (i : Nat)
        (memo : Option (List MetaDict)) (out : List RVal),
        update_meta_list fn args kwargs tm tt i memo rets = .ok out →
        ∀ t : MT, RVal.mt t ∈ out → mtAffDevOk t = true) :=
  ⟨init_affDevOk, copy_attr_fix_devOk,
   fun fn args kwargs tm tt => update_meta_list_devOk fn args kwargs tm tt⟩

/-- Witness for C8: the invariant at concrete inputs - a fresh plain
wrap, an attribute copy of a tensor stored on another device, and the
output of a tracked `a + b`. -/
theorem c8_witness :
    (dictAffDevOk
        ((initHeapOf (metatensor_init hpEx (.plainT exPlain9) none none)).get
          (initMTOf (metatensor_init hpEx (.plainT exPlain9) none none)).metaRef)
        (initMTOf (metatensor_init hpEx (.plainT exPlain9) none none)).data.device =
        true) ∧
    (valOnDev (copy_attr_fix (.leaf (.tens exAffB)) 5) 5 = true) ∧
    (mtAffDevOk ⟨⟨0, [[5, 7, 9]]⟩, .dict exMeta_a, false⟩ = true) := by
  refine ⟨?_, ?_, ?_⟩
  · exact c8_affine_device_invariant.1 hpEx (.plainT exPlain9) none none _ _ _ rfl
  · exact c8_affine_device_invariant.2.1 (.leaf (.tens exAffB)) 5 rfl
  · exact c8_affine_device_invariant.2.2 (.other "add") [Arg.mt ex_a, Arg.mt ex_b]
      [] true false [.mt ex_raw_add] 0 none
      [.mt ⟨⟨0, [[5, 7, 9]]⟩, .dict exMeta_a, false⟩] rfl
      ⟨⟨0, [[5, 7, 9]]⟩, .dict exMeta_a, false⟩ (List.mem_singleton.mpr rfl)
